import Mathlib

/-!
Verification development for the station-catalog pipeline and the playback
resilience manager of the fm-radio-live repository.

The relevant code lives in `src/frontend/src/hooks/useQueries.ts` (two in-repo
variants of the same pipeline, a v6 one and a v7 one that adds a thematic
`tags` field and a Christian-first reorder step) and in the `AudioPlayer`
component (reconnect state machine).

Modelling conventions:
* JavaScript numbers are modelled as exact rationals (`ℚ`); the spec itself
  declares `qualityScore` to be real-valued.  `NaN` is modelled explicitly by
  the `JSNum` type since the code tests `isNaN`.
* JS string comparison (`<` on strings / `localeCompare` used as an ordinal
  comparator) is modelled as lexicographic order on the character list,
  implemented by the structural function `charListLt`.
* `Array.prototype.sort` is stable per the ECMAScript spec; it is modelled by
  `List.insertionSort`, which is a stable sort for the comparator's preorder.
* A JS `Map` keyed by coordinate strings is modelled as an association list in
  key-insertion order (`Map` iteration order is insertion order).
-/

/-- A JavaScript number that may be NaN; finite values are exact rationals. -/
inductive JSNum where
  | nan : JSNum
  | num : ℚ → JSNum
deriving DecidableEq

/-- The `RadioStation` interface of `useQueries.ts`.  `geo_lat`/`geo_long` are
`number | null` in the source, hence `Option JSNum`; `tags` is the optional
field added by the v7 variant. -/
structure RadioStation where
  stationuuid : String
  name : String
  url : String
  url_resolved : String
  homepage : String
  favicon : String
  country : String
  countrycode : String
  state : String
  language : String
  votes : ℤ
  codec : String
  bitrate : ℤ
  clickcount : ℤ
  clicktrend : ℤ
  geo_lat : Option JSNum
  geo_long : Option JSNum
  tags : Option String
deriving DecidableEq

instance : Inhabited JSNum := ⟨JSNum.nan⟩

instance : Inhabited RadioStation :=
  ⟨{ stationuuid := "", name := "", url := "", url_resolved := "",
     homepage := "", favicon := "", country := "", countrycode := "",
     state := "", language := "", votes := 0, codec := "", bitrate := 0,
     clickcount := 0, clicktrend := 0, geo_lat := none, geo_long := none,
     tags := none }⟩

/-- Lexicographic order on character lists; models JS string `<` and the use
of `localeCompare` as an ordinal comparator. -/
def charListLt : List Char → List Char → Bool
  | [], [] => false
  | [], _ :: _ => true
  | _ :: _, [] => false
  | a :: as, b :: bs => decide (a < b) || (a == b && charListLt as bs)

/-- Source `hasValidCoordinates`: null check, NaN check, range check, and the
exclusion of exactly (0,0). -/
def hasValidCoordinates (station : RadioStation) : Bool :=
  match station.geo_lat, station.geo_long with
  | none, _ => false
  | some _, none => false
  | some latN, some lngN =>
    match latN, lngN with
    | JSNum.nan, _ => false
    | JSNum.num _, JSNum.nan => false
    | JSNum.num lat, JSNum.num lng =>
      if lat < -90 ∨ 90 < lat ∨ lng < -180 ∨ 180 < lng then false
      else if lat = 0 ∧ lng = 0 then false
      else true

/-- Source `station.url_resolved || station.url` (a falsy JS string is the
empty string). -/
def resolvedStreamUrl (station : RadioStation) : String :=
  if station.url_resolved ≠ "" then station.url_resolved else station.url

/-- The validation filter applied by `processStations` (the anonymous callback
of `allStations.filter`). -/
def stationFilter (station : RadioStation) : Bool :=
  if !hasValidCoordinates station then false
  else if resolvedStreamUrl station = "" then false
  else if station.country = "" then false
  else if 0 < station.bitrate ∧ station.bitrate < 24 then false
  else true

/-- Source quality score `votes * 2 + clickcount + bitrate / 10`. -/
def qualityScore (s : RadioStation) : ℚ :=
  (s.votes : ℚ) * 2 + (s.clickcount : ℚ) + (s.bitrate : ℚ) / 10

/-- Model of JS `q.toFixed(3)` on a finite number: the ECMAScript algorithm
formats the absolute value with round-half-up at the third decimal and
prefixes a minus sign for negative inputs (so `-0.0001` renders as
`"-0.000"`, distinct from `"0.000"`).  The result is represented as the
magnitude in thousandths together with the sign flag. -/
def toFixed3 (q : ℚ) : ℤ × Bool :=
  if q < 0 then (round (-q * 1000), true) else (round (q * 1000), false)

/-- A coordinate key, i.e. the string template
`lat.toFixed(3) + "," + lng.toFixed(3)`; the formatting is injective on the
pair representation chosen here. -/
abbrev CoordKey := (ℤ × Bool) × (ℤ × Bool)

/-- The coordinate key computed by `deduplicateByCoordinates`.  The fallback
arm is unreachable on validated stations (the source uses the non-null
assertion `geo_lat!`). -/
def coordKey (s : RadioStation) : CoordKey :=
  match s.geo_lat, s.geo_long with
  | some (JSNum.num lat), some (JSNum.num lng) => (toFixed3 lat, toFixed3 lng)
  | _, _ => ((0, false), (0, false))

/-- Replacement test of the coordinate dedup:
`newScore > existingScore || (newScore === existingScore && station.stationuuid < existing.stationuuid)`. -/
def betterStation (station existing : RadioStation) : Bool :=
  decide (qualityScore existing < qualityScore station) ||
    (decide (qualityScore station = qualityScore existing) &&
      charListLt station.stationuuid.data existing.stationuuid.data)

/-- One step of the coordinate dedup loop: `coordMap.get`/`coordMap.set` on an
association list in key-insertion order (a fresh key is appended, an existing
key is updated in place). -/
def coordUpd : List (CoordKey × RadioStation) → RadioStation → List (CoordKey × RadioStation)
  | [], s => [(coordKey s, s)]
  | (k, e) :: rest, s =>
    if k = coordKey s then
      (if betterStation s e then (k, s) :: rest else (k, e) :: rest)
    else (k, e) :: coordUpd rest s

/-- The comparator `a.stationuuid.localeCompare(b.stationuuid)` induces this
total preorder (`a` sorts before or equal to `b`). -/
def uuidLe (a b : RadioStation) : Prop :=
  charListLt b.stationuuid.data a.stationuuid.data = false

instance : DecidableRel uuidLe := fun a b => by
  unfold uuidLe; infer_instance

/-- The initial `[...stations].sort` of `deduplicateByCoordinates`. -/
def sortByUuid (stations : List RadioStation) : List RadioStation :=
  List.insertionSort uuidLe stations

/-- Source `deduplicateByCoordinates`: sort by id, then fold through the
coordinate-keyed map, then take the map's values. -/
def deduplicateByCoordinates (stations : List RadioStation) : List RadioStation :=
  ((sortByUuid stations).foldl coordUpd []).map Prod.snd

/-- Recursion of `deduplicateByUUID`: a JS `Map` that is only ever written
when the key is absent keeps the first-seen record per id, in first-seen
order; `seen` is the key set accumulated so far. -/
def dedupByUUIDGo (seen : List String) : List RadioStation → List RadioStation
  | [] => []
  | s :: rest =>
    if s.stationuuid ∈ seen then dedupByUUIDGo seen rest
    else s :: dedupByUUIDGo (s.stationuuid :: seen) rest

/-- Source `deduplicateByUUID`. -/
def deduplicateByUUID (stations : List RadioStation) : List RadioStation :=
  dedupByUUIDGo [] stations

/-- Source `mergeStations`: concatenate, then identifier dedup. -/
def mergeStations (globalStations extraStations : List RadioStation) : List RadioStation :=
  deduplicateByUUID (globalStations ++ extraStations)

/-- Whether `needle` is a prefix of the second list. -/
def charsPrefix : List Char → List Char → Bool
  | [], _ => true
  | _ :: _, [] => false
  | a :: as, b :: bs => a == b && charsPrefix as bs

/-- Whether `needle` occurs as a contiguous substring. -/
def charsIncluded (needle : List Char) : List Char → Bool
  | [] => needle.isEmpty
  | c :: rest => charsPrefix needle (c :: rest) || charsIncluded needle rest

/-- Model of JS `hay.includes(needle)`. -/
def strIncludes (hay needle : String) : Bool :=
  charsIncluded needle.data hay.data

/-- The fixed keyword vocabulary of `isChristianStation` (v7 variant). -/
def christianKeywords : List String :=
  ["christian", "christ", "jesus", "bible", "gospel", "church",
   "catholic", "protestant", "evangelical", "baptist", "methodist",
   "pentecostal", "worship", "praise", "ministry", "faith",
   "cross", "holy", "blessed", "prayer", "scripture"]

/-- The lower-cased search text
`name + " " + language + " " + homepage + " " + (tags || "")`. -/
def searchText (station : RadioStation) : String :=
  (station.name ++ " " ++ station.language ++ " " ++ station.homepage
    ++ " " ++ (station.tags.getD "")).toLower

/-- Source `isChristianStation` heuristic. -/
def isChristianStation (station : RadioStation) : Bool :=
  christianKeywords.any (fun keyword => strIncludes (searchText station) keyword)

/-- Source `prioritizeChristianStations`: one pass pushing each station onto
one of two accumulators, then concatenating Christian-first. -/
def prioritizeChristianStations (stations : List RadioStation) : List RadioStation :=
  let pair := stations.foldl
    (fun (acc : List RadioStation × List RadioStation) station =>
      if isChristianStation station then (acc.1 ++ [station], acc.2)
      else (acc.1, acc.2 ++ [station]))
    ([], [])
  pair.1 ++ pair.2

/-- The final-sort comparator of `processStations` (score descending, id
ascending on ties) induces this total preorder. -/
def qualityLe (a b : RadioStation) : Prop :=
  qualityScore b < qualityScore a ∨
    (qualityScore a = qualityScore b ∧ uuidLe a b)

instance : DecidableRel qualityLe := fun a b => by
  unfold qualityLe; infer_instance

/-- The `deduplicatedStations.sort` step of `processStations`. -/
def sortByQuality (stations : List RadioStation) : List RadioStation :=
  List.insertionSort qualityLe stations

/-- Source `processStations` (v7 variant; the v6 variant is the same pipeline
without the final `prioritizeChristianStations` step). -/
def processStations (allStations : List RadioStation) : List RadioStation :=
  prioritizeChristianStations
    (sortByQuality (deduplicateByCoordinates (allStations.filter stationFilter)))

/-! Source Client (`fetchBatchFromAPI`): the three mirror servers are tried in
their fixed order inside a `try`/`catch`; a rejected fetch or timeout, a
non-2xx response (`!response.ok` throws) and a malformed body (rejected
`json()` or a non-array result) all `continue` to the next server, so the
function never throws; after the loop it returns the empty list. -/

/-- Outcome of one server attempt. -/
inductive ServerResponse where
  | netError : ServerResponse
  | non2xx : ℕ → ServerResponse
  | badJson : ServerResponse
  | ok : List RadioStation → ServerResponse
deriving DecidableEq

/-- Whether an attempt produced a successfully parsed batch. -/
def isOkResp : ServerResponse → Bool
  | ServerResponse.ok _ => true
  | _ => false

/-- Source `fetchBatchFromAPI`, as a function of the per-server outcomes (in
server order). -/
def fetchBatchFromAPI : List ServerResponse → List RadioStation
  | [] => []
  | r :: rest =>
    match r with
    | ServerResponse.ok batch => batch
    | _ => fetchBatchFromAPI rest

/-- Modelled from the spec: the batch of the first server whose attempt
succeeds, `none` when every server fails (the spec's `NetworkFailure`). -/
def firstOkBatch : List ServerResponse → Option (List RadioStation)
  | [] => none
  | r :: rest =>
    match r with
    | ServerResponse.ok batch => some batch
    | _ => firstOkBatch rest

/-! Catalog Loader (`loadNextBatch`).  The module-level globals
`currentOffset`, `lazyLoadedStations`, `consecutiveEmptyBatches`,
`isLoadingBatch`, `allStationsLoaded` together with the published catalog
(memory cache / query cache) form the loader state; one interval tick runs
`loadNextBatch` once. -/

/-- The loader's mutable globals plus the currently published catalog. -/
structure LoaderState where
  offset : ℕ
  loaded : List RadioStation
  consecutiveEmpty : ℕ
  isLoading : Bool
  allLoaded : Bool
  published : List RadioStation
deriving DecidableEq

/-- What one tick's `fetchBatchFromAPI` call did: either it returned a batch
(possibly empty, which is also what total mirror failure returns) or the tick
raised an exception that lands in the `catch` block. -/
inductive FetchOutcome where
  | success : List RadioStation → FetchOutcome
  | exception : FetchOutcome
deriving DecidableEq

/-- The filter applied to a freshly fetched batch:
`hasValidCoordinates(station) && (station.url_resolved || station.url)`. -/
def batchFilter (station : RadioStation) : Bool :=
  hasValidCoordinates station &&
    (station.url_resolved ≠ "" || station.url ≠ "")

/-- One tick of `loadNextBatch`.  `secondaryFeed` is the result of the
(never-throwing) Christian-stations fetch performed once on completion.
On an empty batch below the completion threshold the source runs
`currentOffset += 200` ("Try next offset"); on the third consecutive empty
batch it sets `allStationsLoaded`, merges the secondary feed and republishes
without advancing the offset; an exception only reaches the `catch`/`finally`
blocks, which log and clear `isLoadingBatch`, leaving every other global
untouched. -/
def loadNextBatch (st : LoaderState) (res : FetchOutcome)
    (secondaryFeed : List RadioStation) : LoaderState :=
  if st.isLoading || st.allLoaded then st
  else
    match res with
    | FetchOutcome.exception => st
    | FetchOutcome.success batch =>
      if batch.isEmpty then
        let k := st.consecutiveEmpty + 1
        if 3 ≤ k then
          let processed := processStations (mergeStations st.loaded secondaryFeed)
          { st with consecutiveEmpty := k, allLoaded := true, published := processed }
        else
          { st with consecutiveEmpty := k, offset := st.offset + 200 }
      else
        let validBatch := batch.filter batchFilter
        let loaded' := st.loaded ++ validBatch
        { st with
            consecutiveEmpty := 0
            loaded := loaded'
            offset := st.offset + 200
            published := processStations loaded' }

/-! Tiered Cache (the `queryFn` of the v6 `useRadioStations` and its helpers
`getFromIndexedDB` / `getCachedStations` / `saveToIndexedDB` /
`setCachedStations`).  Timestamps are milliseconds as naturals. -/

/-- Cache validity window: `1000 * 60 * 45` milliseconds. -/
def CACHE_DURATION : ℕ := 1000 * 60 * 45

/-- The three cache layers.  `memoryCache`/`memoryCacheTimestamp` are the
module globals; the durable layers each store a stations list with the
timestamp recorded at write time. -/
structure CacheState where
  memoryCache : Option (List RadioStation)
  memoryCacheTimestamp : ℕ
  indexedDB : Option (List RadioStation × ℕ)
  localStorage : Option (List RadioStation × ℕ)
deriving DecidableEq

/-- Which layer served a read. -/
inductive ReadSource where
  | memory : ReadSource
  | indexedDB : ReadSource
  | localStorage : ReadSource
  | network : ReadSource
deriving DecidableEq

/-- Source `getFromIndexedDB`: the stored record is used only when
`data && data.timestamp && now - data.timestamp < CACHE_DURATION` (a zero
timestamp is falsy). -/
def getFromIndexedDB (st : CacheState) (now : ℕ) : Option (List RadioStation) :=
  match st.indexedDB with
  | none => none
  | some (stations, ts) =>
    if ts ≠ 0 ∧ now - ts < CACHE_DURATION then some stations else none

/-- Source `getCachedStations` (localStorage): expired entries are removed;
only a non-empty parsed array is returned. -/
def getCachedStations (st : CacheState) (now : ℕ) :
    Option (List RadioStation) × CacheState :=
  match st.localStorage with
  | none => (none, st)
  | some (stations, ts) =>
    if CACHE_DURATION < now - ts then
      (none, { st with localStorage := none })
    else if stations.isEmpty then (none, st)
    else (some stations, st)

/-- Layers 3-4 of the v6 `queryFn` read path: localStorage (on a hit,
backfill memory and IndexedDB), else the network (fetch the first batch,
validate, process, write every layer). -/
def queryReadLS (st : CacheState) (now : ℕ) (firstBatch : List RadioStation) :
    (List RadioStation × ReadSource) × CacheState :=
  match getCachedStations st now with
  | (some lsStations, st') =>
    ((lsStations, ReadSource.localStorage),
      { st' with
          memoryCache := some lsStations
          memoryCacheTimestamp := now
          indexedDB := some (lsStations, now) })
  | (none, st') =>
    if firstBatch.isEmpty then (([], ReadSource.network), st')
    else
      let validStations := firstBatch.filter batchFilter
      let processed := processStations validStations
      ((processed, ReadSource.network),
        { st' with
            memoryCache := some processed
            memoryCacheTimestamp := now
            indexedDB := some (processed, now)
            localStorage := some (processed, now) })

/-- Layers 2-4, reached when the memory layer misses: a non-empty fresh
IndexedDB record is returned and backfills memory; otherwise fall through to
`queryReadLS`. -/
def queryReadStale (st : CacheState) (now : ℕ) (firstBatch : List RadioStation) :
    (List RadioStation × ReadSource) × CacheState :=
  match getFromIndexedDB st now with
  | some idbStations =>
    if idbStations.isEmpty then queryReadLS st now firstBatch
    else
      ((idbStations, ReadSource.indexedDB),
        { st with memoryCache := some idbStations, memoryCacheTimestamp := now })
  | none => queryReadLS st now firstBatch

/-- The v6 `queryFn` read path: memory, then IndexedDB, then localStorage,
then the network.  `firstBatch` stands for what `fetchBatchFromAPI(0, 200)`
returned on the network path. -/
def queryRead (st : CacheState) (now : ℕ) (firstBatch : List RadioStation) :
    (List RadioStation × ReadSource) × CacheState :=
  match st.memoryCache with
  | some m =>
    if now - st.memoryCacheTimestamp < CACHE_DURATION then ((m, ReadSource.memory), st)
    else queryReadStale st now firstBatch
  | none => queryReadStale st now firstBatch

/-! Playback Resilience Manager (the `AudioPlayer` component).  The refs
`retryCountRef`, `isReconnectingRef`, `playbackStartedRef`,
`currentStationRef`, `retryTimeoutRef` and the `isPlaying`/`error` state
variables form the session state; media events drive the transitions. -/

/-- Source `maxRetries`. -/
def maxRetries : ℕ := 10

/-- Source `baseRetryDelay` (milliseconds). -/
def baseRetryDelay : ℕ := 2000

/-- The playback session state.  `scheduledReload` is the pending retry timer
(`retryTimeoutRef`), carrying the delay it was armed with; `stationBound`
models `currentStationRef !== null`. -/
structure PlayerState where
  retryCount : ℕ
  isReconnecting : Bool
  playbackStarted : Bool
  isPlaying : Bool
  error : Option String
  scheduledReload : Option ℕ
  stationBound : Bool
deriving DecidableEq

/-- Source `attemptReconnect`: bail out without a station; at
`retryCount >= maxRetries` report the terminal error and stop; otherwise mark
reconnecting, bump the count, and (re)arm the retry timer with
`min(baseRetryDelay * 2^(retryCount - 1), 30000)` computed after the bump. -/
def attemptReconnect (st : PlayerState) : PlayerState :=
  if !st.stationBound then st
  else if maxRetries ≤ st.retryCount then
    { st with error := some "Unable to connect to stream", isPlaying := false }
  else
    let n := st.retryCount + 1
    { st with
        isReconnecting := true
        retryCount := n
        scheduledReload := some (min (baseRetryDelay * 2 ^ (n - 1)) 30000) }

/-- The media/user events that drive the session. -/
inductive PlayerEvent where
  | canplayOk : PlayerEvent
  | canplayFail : PlayerEvent
  | errorEv : PlayerEvent
  | stalledEv : PlayerEvent
  | endedEv : PlayerEvent
  | playingEv : PlayerEvent
  | pauseEv : PlayerEvent
  | selectStation : PlayerEvent
  | closePlayer : PlayerEvent
deriving DecidableEq

/-- The event handlers of the source, as one transition function.
`canplay` resets the retry bookkeeping and then either starts playback or
(on a rejected `play()`) calls `attemptReconnect`; `error` is guarded only by
`isReconnecting`; `stalled` additionally requires `playbackStarted`; a
station change cancels the timer and resets the session (the `audio.pause()`
it performs queues a pause event that is handled before any media event of
the newly loaded stream, so the change also ends playback); close cancels
the timer and unbinds the station. -/
def playerStep (st : PlayerState) : PlayerEvent → PlayerState
  | PlayerEvent.canplayOk =>
    { st with
        retryCount := 0, isReconnecting := false, isPlaying := true
        playbackStarted := true, error := none }
  | PlayerEvent.canplayFail =>
    attemptReconnect { st with retryCount := 0, isReconnecting := false }
  | PlayerEvent.errorEv =>
    if !st.isReconnecting then attemptReconnect st else st
  | PlayerEvent.stalledEv =>
    if !st.isReconnecting && st.playbackStarted then attemptReconnect st else st
  | PlayerEvent.endedEv =>
    { st with isPlaying := false, playbackStarted := false }
  | PlayerEvent.playingEv =>
    { st with
        isPlaying := true, playbackStarted := true, error := none
        retryCount := 0, isReconnecting := false }
  | PlayerEvent.pauseEv => { st with isPlaying := false }
  | PlayerEvent.selectStation =>
    { st with
        scheduledReload := none, retryCount := 0, playbackStarted := false
        isReconnecting := false, stationBound := true, error := none
        isPlaying := false }
  | PlayerEvent.closePlayer =>
    { st with isPlaying := false, scheduledReload := none, stationBound := false }

/-! Order facts about the modelled string comparator. -/

theorem charListLt_irrefl : ∀ l : List Char, charListLt l l = false
  | [] => rfl
  | a :: as => by
    simp [charListLt, charListLt_irrefl as]

theorem charListLt_asymm :
    ∀ {a b : List Char}, charListLt a b = true → charListLt b a = false
  | [], [], h => by simp [charListLt] at h
  | [], _ :: _, _ => rfl
  | _ :: _, [], h => by simp [charListLt] at h
  | a :: as, b :: bs, h => by
    simp only [charListLt, Bool.or_eq_true, Bool.and_eq_true, decide_eq_true_eq,
      beq_iff_eq] at h
    rcases h with h | ⟨rfl, h⟩
    · simp [charListLt, not_lt_of_gt h, (ne_of_gt h), charListLt]
    · simp [charListLt, charListLt_asymm h]

theorem charListLt_trans :
    ∀ {a b c : List Char}, charListLt a b = true → charListLt b c = true →
      charListLt a c = true
  | [], _ :: _, _ :: _, _, _ => rfl
  | [], _ :: _, [], _, h2 => by simp [charListLt] at h2
  | [], [], _, h1, _ => by simp [charListLt] at h1
  | _ :: _, [], _, h1, _ => by simp [charListLt] at h1
  | _ :: _, _ :: _, [], _, h2 => by simp [charListLt] at h2
  | a :: as, b :: bs, c :: cs, h1, h2 => by
    simp only [charListLt, Bool.or_eq_true, Bool.and_eq_true, decide_eq_true_eq,
      beq_iff_eq] at h1 h2 ⊢
    rcases h1 with h1 | ⟨rfl, h1⟩ <;> rcases h2 with h2 | ⟨rfl, h2⟩
    · exact Or.inl (lt_trans h1 h2)
    · exact Or.inl h1
    · exact Or.inl h2
    · exact Or.inr ⟨rfl, charListLt_trans h1 h2⟩

theorem charListLt_eq_of_not_lt :
    ∀ {a b : List Char}, charListLt a b = false → charListLt b a = false → a = b
  | [], [], _, _ => rfl
  | [], _ :: _, h1, _ => by simp [charListLt] at h1
  | _ :: _, [], _, h2 => by simp [charListLt] at h2
  | a :: as, b :: bs, h1, h2 => by
    simp only [charListLt, Bool.or_eq_false_iff, decide_eq_false_iff_not] at h1 h2
    obtain ⟨hab, h1'⟩ := h1
    obtain ⟨hba, h2'⟩ := h2
    have hEq : a = b := le_antisymm (not_lt.mp hba) (not_lt.mp hab)
    subst hEq
    simp only [beq_self_eq_true, Bool.true_and] at h1' h2'
    exact congrArg (a :: ·) (charListLt_eq_of_not_lt h1' h2')

instance : IsTotal RadioStation uuidLe := by
  constructor
  intro a b
  unfold uuidLe
  rcases h : charListLt b.stationuuid.data a.stationuuid.data with _ | _
  · exact Or.inl rfl
  · exact Or.inr (charListLt_asymm h)

instance : IsTrans RadioStation uuidLe := by
  constructor
  intro a b c h1 h2
  unfold uuidLe at h1 h2 ⊢
  rcases h : charListLt c.stationuuid.data a.stationuuid.data with _ | _
  · rfl
  · exfalso
    rcases hab : charListLt a.stationuuid.data b.stationuuid.data with _ | _
    · have := charListLt_eq_of_not_lt hab h1
      rw [this] at h
      rw [h] at h2
      exact Bool.noConfusion h2
    · have := charListLt_trans h hab
      rw [this] at h2
      exact Bool.noConfusion h2

instance : IsTotal RadioStation qualityLe := by
  constructor
  intro a b
  unfold qualityLe
  rcases lt_trichotomy (qualityScore a) (qualityScore b) with h | h | h
  · exact Or.inr (Or.inl h)
  · rcases total_of uuidLe a b with hu | hu
    · exact Or.inl (Or.inr ⟨h, hu⟩)
    · exact Or.inr (Or.inr ⟨h.symm, hu⟩)
  · exact Or.inl (Or.inl h)

instance : IsTrans RadioStation qualityLe := by
  constructor
  intro a b c h1 h2
  unfold qualityLe at h1 h2 ⊢
  rcases h1 with h1 | ⟨he1, hu1⟩
  · rcases h2 with h2 | ⟨he2, hu2⟩
    · exact Or.inl (lt_trans h2 h1)
    · exact Or.inl (he2 ▸ h1)
  · rcases h2 with h2 | ⟨he2, hu2⟩
    · exact Or.inl (he1 ▸ h2)
    · exact Or.inr ⟨he1.trans he2, Trans.trans hu1 hu2⟩

/-- Two stations that compare equal under the final-ordering comparator have
the same identifier. -/
theorem qualityLe_antisymm_uuid {a b : RadioStation}
    (h1 : qualityLe a b) (h2 : qualityLe b a) : a.stationuuid = b.stationuuid := by
  unfold qualityLe at h1 h2
  rcases h1 with h1 | ⟨he1, hu1⟩
  · rcases h2 with h2 | ⟨he2, hu2⟩
    · exact absurd h1 (lt_asymm h2)
    · exact absurd h1 (he2 ▸ lt_irrefl _)
  · rcases h2 with h2 | ⟨he2, hu2⟩
    · exact absurd h2 (he1 ▸ lt_irrefl _)
    · exact String.ext (charListLt_eq_of_not_lt hu2 hu1)

/-! Helper lemmas about the pipeline stages. -/

theorem mem_coordUpd {m : List (CoordKey × RadioStation)} {s : RadioStation}
    {p : CoordKey × RadioStation} (h : p ∈ coordUpd m s) :
    p ∈ m ∨ p = (coordKey s, s) := by
  induction m with
  | nil =>
    simp only [coordUpd, List.mem_singleton] at h
    exact Or.inr h
  | cons hd tl ih =>
    obtain ⟨k, e⟩ := hd
    rw [coordUpd] at h
    split at h
    · rename_i hk
      split at h
      · rcases List.mem_cons.mp h with h' | h'
        · exact Or.inr (by rw [h', hk])
        · exact Or.inl (List.mem_cons_of_mem _ h')
      · rcases List.mem_cons.mp h with h' | h'
        · exact Or.inl (h' ▸ List.mem_cons_self _ _)
        · exact Or.inl (List.mem_cons_of_mem _ h')
    · rcases List.mem_cons.mp h with h' | h'
      · exact Or.inl (h' ▸ List.mem_cons_self _ _)
      · rcases ih h' with h'' | h''
        · exact Or.inl (List.mem_cons_of_mem _ h'')
        · exact Or.inr h''

theorem mem_foldl_coordUpd {l : List RadioStation}
    {m : List (CoordKey × RadioStation)} {p : CoordKey × RadioStation}
    (h : p ∈ l.foldl coordUpd m) : p ∈ m ∨ p.2 ∈ l := by
  induction l generalizing m with
  | nil => exact Or.inl h
  | cons s rest ih =>
    rcases ih h with h' | h'
    · rcases mem_coordUpd h' with h'' | h''
      · exact Or.inl h''
      · exact Or.inr (by rw [h'']; exact List.mem_cons_self _ _)
    · exact Or.inr (List.mem_cons_of_mem _ h')

theorem mem_of_mem_deduplicateByCoordinates {l : List RadioStation}
    {s : RadioStation} (h : s ∈ deduplicateByCoordinates l) : s ∈ l := by
  unfold deduplicateByCoordinates at h
  obtain ⟨p, hp, hps⟩ := List.mem_map.mp h
  rcases mem_foldl_coordUpd hp with h' | h'
  · exact absurd h' (List.not_mem_nil p)
  · rw [hps] at h'
    exact (List.mem_insertionSort uuidLe).mp h'

theorem prioritize_foldl (l : List RadioStation)
    (acc : List RadioStation × List RadioStation) :
    l.foldl
      (fun (acc : List RadioStation × List RadioStation) station =>
        if isChristianStation station then (acc.1 ++ [station], acc.2)
        else (acc.1, acc.2 ++ [station])) acc =
      (acc.1 ++ l.filter (fun s => isChristianStation s),
        acc.2 ++ l.filter (fun s => !isChristianStation s)) := by
  induction l generalizing acc with
  | nil => simp
  | cons s rest ih =>
    by_cases hc : isChristianStation s = true <;>
      simp [List.foldl_cons, hc, ih, List.filter_cons]

/-- The thematic reorder is the stable partition by the keyword heuristic. -/
theorem prioritizeChristianStations_eq (l : List RadioStation) :
    prioritizeChristianStations l =
      l.filter (fun s => isChristianStation s) ++
        l.filter (fun s => !isChristianStation s) := by
  unfold prioritizeChristianStations
  rw [prioritize_foldl]
  simp

theorem mem_prioritizeChristianStations {l : List RadioStation}
    {s : RadioStation} :
    s ∈ prioritizeChristianStations l ↔ s ∈ l := by
  rw [prioritizeChristianStations_eq]
  constructor
  · intro h
    rcases List.mem_append.mp h with h' | h' <;> exact List.mem_of_mem_filter h'
  · intro h
    by_cases hc : isChristianStation s = true
    · exact List.mem_append.mpr (Or.inl (List.mem_filter.mpr ⟨h, hc⟩))
    · exact List.mem_append.mpr
        (Or.inr (List.mem_filter.mpr ⟨h, by simp [hc]⟩))

theorem mem_processStations {l : List RadioStation} {s : RadioStation}
    (h : s ∈ processStations l) : s ∈ l.filter stationFilter := by
  unfold processStations at h
  have h1 := mem_prioritizeChristianStations.mp h
  have h2 := (List.mem_insertionSort qualityLe).mp h1
  exact mem_of_mem_deduplicateByCoordinates h2

/-! Claim C1. -/

/-- The validity predicate exactly as the specification states it: non-null,
non-NaN coordinates in range and not exactly (0,0), a non-empty resolved
stream URL, a non-empty country name, and bitrate zero or at least 24. -/
def validStationSpec (s : RadioStation) : Prop :=
  (∃ lat lng : ℚ,
    s.geo_lat = some (JSNum.num lat) ∧ s.geo_long = some (JSNum.num lng) ∧
    -90 ≤ lat ∧ lat ≤ 90 ∧ -180 ≤ lng ∧ lng ≤ 180 ∧ ¬(lat = 0 ∧ lng = 0)) ∧
  resolvedStreamUrl s ≠ "" ∧ s.country ≠ "" ∧
  (s.bitrate = 0 ∨ 24 ≤ s.bitrate)

theorem hasValidCoordinates_iff (s : RadioStation) :
    hasValidCoordinates s = true ↔
      ∃ lat lng : ℚ,
        s.geo_lat = some (JSNum.num lat) ∧ s.geo_long = some (JSNum.num lng) ∧
        -90 ≤ lat ∧ lat ≤ 90 ∧ -180 ≤ lng ∧ lng ≤ 180 ∧ ¬(lat = 0 ∧ lng = 0) := by
  rcases hla : s.geo_lat with _ | latN
  · simp [hasValidCoordinates, hla]
  · rcases hlo : s.geo_long with _ | lngN
    · cases latN <;> simp [hasValidCoordinates, hla, hlo]
    · cases latN with
      | nan => simp [hasValidCoordinates, hla, hlo]
      | num lat =>
        cases lngN with
        | nan => simp [hasValidCoordinates, hla, hlo]
        | num lng =>
          simp only [hasValidCoordinates, hla, hlo, Option.some.injEq,
            JSNum.num.injEq]
          split_ifs with h1 h2
          · constructor
            · intro h
              exact absurd h (by simp)
            · rintro ⟨lat', lng', rfl, rfl, hb⟩
              obtain ⟨a1, a2, a3, a4, a5⟩ := hb
              rcases h1 with h1 | h1 | h1 | h1
              · exact absurd h1 (not_lt.mpr a1)
              · exact absurd h1 (not_lt.mpr a2)
              · exact absurd h1 (not_lt.mpr a3)
              · exact absurd h1 (not_lt.mpr a4)
          · constructor
            · intro h
              exact absurd h (by simp)
            · rintro ⟨lat', lng', rfl, rfl, _, _, _, _, hne⟩
              exact hne h2
          · push_neg at h1
            obtain ⟨b1, b2, b3, b4⟩ := h1
            constructor
            · intro _
              exact ⟨lat, lng, rfl, rfl, b1, b2, b3, b4, h2⟩
            · intro _
              rfl

theorem stationFilter_iff (s : RadioStation) :
    stationFilter s = true ↔
      hasValidCoordinates s = true ∧ resolvedStreamUrl s ≠ "" ∧
        s.country ≠ "" ∧ ¬(0 < s.bitrate ∧ s.bitrate < 24) := by
  unfold stationFilter
  split_ifs with h1 h2 h3 h4 <;> simp_all

/-- C1: validation accepts a station exactly when it has non-null, non-NaN,
in-range coordinates not equal to (0,0), a non-empty resolved stream URL, a
non-empty country name, and bitrate 0 or at least 24 (given the data model's
constraint that the bitrate is non-negative); and every station published by
`processStations` passed this validation, i.e. every failing station is
dropped. -/
theorem claim_C1_validation :
    (∀ s : RadioStation, 0 ≤ s.bitrate →
        (stationFilter s = true ↔ validStationSpec s)) ∧
    (∀ l : List RadioStation, (processStations l).all stationFilter = true) := by
  constructor
  · intro s hb
    rw [stationFilter_iff, validStationSpec, hasValidCoordinates_iff]
    constructor
    · rintro ⟨hc, hu, hn, hbr⟩
      refine ⟨hc, hu, hn, ?_⟩
      omega
    · rintro ⟨hc, hu, hn, hbr⟩
      refine ⟨hc, hu, hn, ?_⟩
      omega
  · intro l
    rw [List.all_eq_true]
    intro s hs
    exact List.of_mem_filter (mem_processStations hs)

/-- A concrete valid station used by witnesses. -/
def wsValid : RadioStation :=
  { stationuuid := "w1", name := "Alpha", url := "http://a.example/stream",
    url_resolved := "", homepage := "", favicon := "", country := "Norway",
    countrycode := "NO", state := "", language := "english", votes := 3,
    codec := "MP3", bitrate := 128, clickcount := 7, clicktrend := 0,
    geo_lat := some (JSNum.num 10), geo_long := some (JSNum.num 20),
    tags := none }

theorem claim_C1_validation_witness :
    0 ≤ wsValid.bitrate ∧
      (stationFilter wsValid = true ↔ validStationSpec wsValid) :=
  ⟨by decide, claim_C1_validation.1 wsValid (by decide)⟩

/-! Claim C8: identifier dedup. -/

theorem dedupByUUIDGo_nodup (l : List RadioStation) (seen : List String) :
    ((dedupByUUIDGo seen l).map RadioStation.stationuuid).Nodup ∧
      ∀ u ∈ (dedupByUUIDGo seen l).map RadioStation.stationuuid, u ∉ seen := by
  induction l generalizing seen with
  | nil => simp [dedupByUUIDGo]
  | cons s rest ih =>
    rw [dedupByUUIDGo]
    split
    · exact (ih seen)
    · rename_i hns
      obtain ⟨ihn, ihs⟩ := ih (s.stationuuid :: seen)
      constructor
      · rw [List.map_cons, List.nodup_cons]
        refine ⟨fun hmem => ?_, ihn⟩
        exact (ihs _ hmem) (List.mem_cons_self _ _)
      · intro u hu
        rw [List.map_cons] at hu
        rcases List.mem_cons.mp hu with h' | h'
        · exact h' ▸ hns
        · intro hcon
          exact (ihs u h') (List.mem_cons_of_mem _ hcon)

theorem dedupByUUIDGo_find {l : List RadioStation} {seen : List String}
    {s : RadioStation} (h : s ∈ dedupByUUIDGo seen l) :
    l.find? (fun t => t.stationuuid == s.stationuuid) = some s := by
  induction l generalizing seen with
  | nil => simp [dedupByUUIDGo] at h
  | cons t rest ih =>
    rw [dedupByUUIDGo] at h
    split at h
    · rename_i hin
      have hs : s.stationuuid ∉ seen :=
        (dedupByUUIDGo_nodup rest seen).2 s.stationuuid
          (List.mem_map.mpr ⟨s, h, rfl⟩)
      have hne : (t.stationuuid == s.stationuuid) = false := by
        simp only [beq_eq_false_iff_ne, ne_eq]
        intro hcon
        exact hs (hcon ▸ hin)
      rw [List.find?_cons, hne]
      exact ih h
    · rename_i hnotin
      rcases List.mem_cons.mp h with h' | h'
      · subst h'
        exact List.find?_cons_of_pos _ (by simp)
      · have hs : s.stationuuid ∉ t.stationuuid :: seen :=
          (dedupByUUIDGo_nodup rest (t.stationuuid :: seen)).2 s.stationuuid
            (List.mem_map.mpr ⟨s, h', rfl⟩)
        have hne : (t.stationuuid == s.stationuuid) = false := by
          simp only [beq_eq_false_iff_ne, ne_eq]
          intro hcon
          exact hs (hcon ▸ List.mem_cons_self _ _)
        rw [List.find?_cons, hne]
        exact ih h'

theorem dedupByUUIDGo_covers {l : List RadioStation} {seen : List String}
    {t : RadioStation} (h : t ∈ l) :
    t.stationuuid ∈ seen ∨
      ∃ s ∈ dedupByUUIDGo seen l, s.stationuuid = t.stationuuid := by
  induction l generalizing seen with
  | nil => simp at h
  | cons hd rest ih =>
    rw [dedupByUUIDGo]
    split
    · rename_i hin
      rcases List.mem_cons.mp h with h' | h'
      · exact Or.inl (h' ▸ hin)
      · exact ih h'
    · rename_i hnotin
      rcases List.mem_cons.mp h with h' | h'
      · exact Or.inr ⟨hd, List.mem_cons_self _ _, by rw [h']⟩
      · rcases @ih (hd.stationuuid :: seen) h' with h'' | h''
        · rcases List.mem_cons.mp h'' with h3 | h3
          · exact Or.inr ⟨hd, List.mem_cons_self _ _, h3.symm⟩
          · exact Or.inl h3
        · obtain ⟨s, hs1, hs2⟩ := h''
          exact Or.inr ⟨s, List.mem_cons_of_mem _ hs1, hs2⟩

/-- C8: merging two station sequences by identifier dedup over their
concatenation keeps exactly one station per identifier occurring in either
input: the output identifiers are pairwise distinct, the output length is the
number of distinct identifiers of the concatenation, the kept record for
each identifier is the first-seen occurrence in concatenated order, and
every input identifier is represented. -/
theorem claim_C8_merge (A B : List RadioStation) :
    mergeStations A B = deduplicateByUUID (A ++ B) ∧
    ((mergeStations A B).map RadioStation.stationuuid).Nodup ∧
    (mergeStations A B).length =
      ((A ++ B).map RadioStation.stationuuid).toFinset.card ∧
    (∀ s ∈ mergeStations A B,
      (A ++ B).find? (fun t => t.stationuuid == s.stationuuid) = some s) ∧
    (∀ t ∈ A ++ B, ∃ s ∈ mergeStations A B, s.stationuuid = t.stationuuid) := by
  have hdef : mergeStations A B = dedupByUUIDGo [] (A ++ B) := rfl
  have hnodup := (dedupByUUIDGo_nodup (A ++ B) []).1
  refine ⟨rfl, hdef ▸ hnodup, ?_, ?_, ?_⟩
  · have hset : ((mergeStations A B).map RadioStation.stationuuid).toFinset =
        ((A ++ B).map RadioStation.stationuuid).toFinset := by
      apply Finset.ext
      intro u
      simp only [List.mem_toFinset, List.mem_map]
      constructor
      · rintro ⟨s, hs, rfl⟩
        exact ⟨s, List.mem_of_find?_eq_some (dedupByUUIDGo_find (hdef ▸ hs)), rfl⟩
      · rintro ⟨t, ht, rfl⟩
        rcases @dedupByUUIDGo_covers _ [] _ ht with h' | h'
        · simp at h'
        · obtain ⟨s, hs1, hs2⟩ := h'
          exact ⟨s, hdef ▸ hs1, hs2⟩
    calc (mergeStations A B).length
        = ((mergeStations A B).map RadioStation.stationuuid).length := by
          rw [List.length_map]
      _ = ((mergeStations A B).map RadioStation.stationuuid).toFinset.card := by
          rw [List.toFinset_card_of_nodup (hdef ▸ hnodup)]
      _ = ((A ++ B).map RadioStation.stationuuid).toFinset.card := by rw [hset]
  · intro s hs
    exact dedupByUUIDGo_find (hdef ▸ hs)
  · intro t ht
    rcases @dedupByUUIDGo_covers _ [] _ ht with h' | h'
    · simp at h'
    · obtain ⟨s, hs1, hs2⟩ := h'
      exact ⟨s, hdef ▸ hs1, hs2⟩

/-- A second concrete station, distinct id. -/
def wsOther : RadioStation :=
  { stationuuid := "w2", name := "Beta", url := "http://b.example/stream",
    url_resolved := "http://b.example/live", homepage := "", favicon := "",
    country := "Chile", countrycode := "CL", state := "", language := "spanish",
    votes := 1, codec := "AAC", bitrate := 64, clickcount := 2, clicktrend := 1,
    geo_lat := some (JSNum.num 30), geo_long := some (JSNum.num 40),
    tags := none }

/-- A duplicate of `wsValid`'s id with a different payload. -/
def wsDupId : RadioStation :=
  { wsValid with name := "AlphaCopy", votes := 9 }

theorem claim_C8_merge_witness :
    (mergeStations [wsValid, wsOther] [wsDupId]).length =
        (([wsValid, wsOther] ++ [wsDupId]).map RadioStation.stationuuid).toFinset.card ∧
      (mergeStations [wsValid, wsOther] [wsDupId]).length = 2 :=
  ⟨(claim_C8_merge [wsValid, wsOther] [wsDupId]).2.2.1, by decide⟩

/-! Claim C5: the Source Client. -/

/-- C5 (amended): `fetchBatchFromAPI` tries the servers in their fixed order,
moving past every failed attempt (network error, non-2xx, malformed JSON);
it returns the batch of the first successful server, and when no server
succeeds it returns the empty sequence (it never throws: every failure mode
is caught inside the loop).  An empty result therefore means that either all
servers failed or the first successful server itself returned an empty
batch. -/
theorem claim_C5_fetchBatch (responses : List ServerResponse) :
    fetchBatchFromAPI responses = (firstOkBatch responses).getD [] ∧
    ((firstOkBatch responses).isNone ↔
      ∀ r ∈ responses, isOkResp r = false) ∧
    (∀ r rest, fetchBatchFromAPI (r :: rest) =
      match r with
      | ServerResponse.ok batch => batch
      | _ => fetchBatchFromAPI rest) := by
  refine ⟨?_, ?_, fun r rest => rfl⟩
  · induction responses with
    | nil => rfl
    | cons r rest ih =>
      cases r <;> simp [fetchBatchFromAPI, firstOkBatch, ih]
  · induction responses with
    | nil => simp [firstOkBatch]
    | cons r rest ih =>
      cases r <;> simp [firstOkBatch, isOkResp, ih]

theorem claim_C5_fetchBatch_witness :
    fetchBatchFromAPI [ServerResponse.netError, ServerResponse.ok [wsValid]] =
        (firstOkBatch [ServerResponse.netError, ServerResponse.ok [wsValid]]).getD [] ∧
      fetchBatchFromAPI [ServerResponse.netError, ServerResponse.ok [wsValid]] = [wsValid] :=
  ⟨(claim_C5_fetchBatch [ServerResponse.netError, ServerResponse.ok [wsValid]]).1, rfl⟩

/-- C5 counterexample to the claim as stated: when the first server succeeds
with an empty parsed batch, the call returns the empty sequence even though
not all servers failed (the second server was never tried, and the first one
succeeded). -/
theorem claim_C5_counterexample :
    fetchBatchFromAPI
        [ServerResponse.ok [], ServerResponse.ok [wsValid], ServerResponse.ok [wsOther]] = [] ∧
      ¬(∀ r ∈ [ServerResponse.ok ([] : List RadioStation),
          ServerResponse.ok [wsValid], ServerResponse.ok [wsOther]],
          isOkResp r = false) := by
  constructor
  · rfl
  · intro h
    have := h (ServerResponse.ok []) (List.mem_cons_self _ _)
    simp [isOkResp] at this

/-! Claim C3: loader failure semantics. -/

/-- C3 (amended): a tick whose fetch raises an exception leaves the loader
state — offset, accumulated stations, empty-batch counter, completion flag
and published catalog — entirely unchanged, so the same page is retried at
the next tick.  But a tick in which all mirror servers were exhausted is
indistinguishable from a successful empty page: below the completion
threshold the loader increments `consecutiveEmptyBatches` and advances
`offset` by 200 (the same page is *not* retried), and on the third
consecutive empty result it instead marks loading complete (leaving the
offset unchanged) — so mirror exhaustion does advance the loader toward
completion. -/
theorem claim_C3_failure_semantics :
    (∀ (st : LoaderState) (sec : List RadioStation),
      loadNextBatch st FetchOutcome.exception sec = st) ∧
    (∀ (st : LoaderState) (sec : List RadioStation),
      st.isLoading = false → st.allLoaded = false → st.consecutiveEmpty + 1 < 3 →
      loadNextBatch st (FetchOutcome.success []) sec =
        { st with consecutiveEmpty := st.consecutiveEmpty + 1,
                  offset := st.offset + 200 }) ∧
    (∀ (st : LoaderState) (sec : List RadioStation),
      st.isLoading = false → st.allLoaded = false → 3 ≤ st.consecutiveEmpty + 1 →
      (loadNextBatch st (FetchOutcome.success []) sec).allLoaded = true ∧
      (loadNextBatch st (FetchOutcome.success []) sec).offset = st.offset) := by
  refine ⟨?_, ?_, ?_⟩
  · intro st sec
    unfold loadNextBatch
    split
    · rfl
    · rfl
  · intro st sec h1 h2 h3
    unfold loadNextBatch
    rw [if_neg (by simp [h1, h2])]
    simp only [List.isEmpty_nil, if_true]
    rw [if_neg (by omega)]
  · intro st sec h1 h2 h3
    unfold loadNextBatch
    rw [if_neg (by simp [h1, h2])]
    simp only [List.isEmpty_nil, if_true]
    rw [if_pos h3]
    exact ⟨rfl, rfl⟩

/-- A loader state mid-run, used by the C3 witness and counterexample. -/
def loaderAt600 : LoaderState :=
  { offset := 600, loaded := [], consecutiveEmpty := 0, isLoading := false,
    allLoaded := false, published := [] }

theorem claim_C3_failure_semantics_witness :
    loaderAt600.isLoading = false ∧ loaderAt600.allLoaded = false ∧
      loaderAt600.consecutiveEmpty + 1 < 3 ∧
      loadNextBatch loaderAt600 (FetchOutcome.success []) [] =
        { loaderAt600 with consecutiveEmpty := loaderAt600.consecutiveEmpty + 1,
                           offset := loaderAt600.offset + 200 } ∧
      loadNextBatch loaderAt600 FetchOutcome.exception [] = loaderAt600 :=
  ⟨rfl, rfl, by decide,
    (claim_C3_failure_semantics.2.1 loaderAt600 [] rfl rfl (by decide)),
    claim_C3_failure_semantics.1 loaderAt600 []⟩

/-- C3 counterexample to the claim as stated: a page fetch in which all
mirror servers are exhausted (`fetchBatchFromAPI` returns the empty list,
without throwing) *does* advance the offset — from 600 to 800 — and
increments the empty-batch counter toward completion, so the same page is
not fetched again at the next tick. -/
theorem claim_C3_counterexample :
    fetchBatchFromAPI
        [ServerResponse.netError, ServerResponse.netError, ServerResponse.netError] = [] ∧
      (loadNextBatch loaderAt600 (FetchOutcome.success
          (fetchBatchFromAPI
            [ServerResponse.netError, ServerResponse.netError, ServerResponse.netError])) []).offset
        = 800 ∧
      (loadNextBatch loaderAt600 (FetchOutcome.success
          (fetchBatchFromAPI
            [ServerResponse.netError, ServerResponse.netError, ServerResponse.netError])) []).consecutiveEmpty
        = 1 ∧
      loaderAt600.offset = 600 := by
  refine ⟨rfl, ?_, ?_, rfl⟩ <;> rfl

/-! Claims C2 and C9: the reconnect state machine. -/

/-- Case analysis of `attemptReconnect`: no-op without a bound station,
terminal failure at the retry cap, otherwise bump-and-schedule. -/
theorem attemptReconnect_cases (st : PlayerState) :
    (st.stationBound = false ∧ attemptReconnect st = st) ∨
    (st.stationBound = true ∧ maxRetries ≤ st.retryCount ∧
      attemptReconnect st =
        { st with error := some "Unable to connect to stream",
                  isPlaying := false }) ∨
    (st.stationBound = true ∧ st.retryCount < maxRetries ∧
      attemptReconnect st =
        { st with isReconnecting := true, retryCount := st.retryCount + 1,
                  scheduledReload :=
                    some (min (baseRetryDelay * 2 ^ (st.retryCount + 1 - 1))
                      30000) }) := by
  rcases hb : st.stationBound with _ | _
  · refine Or.inl ⟨rfl, ?_⟩
    unfold attemptReconnect
    rw [hb]
    rfl
  · by_cases hr : maxRetries ≤ st.retryCount
    · refine Or.inr (Or.inl ⟨rfl, hr, ?_⟩)
      unfold attemptReconnect
      rw [hb, if_neg (by decide), if_pos hr]
    · refine Or.inr (Or.inr ⟨rfl, lt_of_not_le hr, ?_⟩)
      unfold attemptReconnect
      rw [hb, if_neg (by decide), if_neg hr]

theorem attemptReconnect_playbackStarted (st : PlayerState) :
    (attemptReconnect st).playbackStarted = st.playbackStarted := by
  rcases attemptReconnect_cases st with ⟨_, h⟩ | ⟨_, _, h⟩ | ⟨_, _, h⟩ <;> rw [h]

theorem attemptReconnect_isPlaying (st : PlayerState) :
    (attemptReconnect st).isPlaying = true → st.isPlaying = true := by
  rcases attemptReconnect_cases st with ⟨_, h⟩ | ⟨_, _, h⟩ | ⟨_, _, h⟩ <;> rw [h]
  · exact id
  · intro hcon
    exact absurd hcon (by simp)
  · exact id

theorem attemptReconnect_frozen {st : PlayerState}
    (hr : maxRetries ≤ st.retryCount) :
    (attemptReconnect st).scheduledReload = st.scheduledReload ∧
      (attemptReconnect st).retryCount = st.retryCount := by
  rcases attemptReconnect_cases st with ⟨_, h⟩ | ⟨_, _, h⟩ | ⟨_, hlt, h⟩
  · rw [h]
    exact ⟨rfl, rfl⟩
  · rw [h]
    exact ⟨rfl, rfl⟩
  · exact absurd hr (not_le.mpr hlt)

/-- C2: at reconnect attempt number n (for n = 1..10) the scheduled reload
delay is min(2000 * 2^(n-1), 30000) ms; the attempt after the 10th failure
enters the terminal failed state, reporting "Unable to connect to stream"
and scheduling nothing; from then on no failure-path event (error, stalled,
ended, pause, close — the events that can occur without a new load) ever
schedules a reload or changes the retry count, and only an explicit station
selection resets the session; any transition to Playing resets the retry
count to 0. -/
theorem claim_C2_backoff :
    (∀ (st : PlayerState) (n : ℕ), 1 ≤ n → n ≤ maxRetries →
      st.stationBound = true → st.retryCount = n - 1 →
      (attemptReconnect st).retryCount = n ∧
      (attemptReconnect st).isReconnecting = true ∧
      (attemptReconnect st).scheduledReload =
        some (min (2000 * 2 ^ (n - 1)) 30000)) ∧
    (∀ st : PlayerState, st.stationBound = true → maxRetries ≤ st.retryCount →
      attemptReconnect st =
        { st with error := some "Unable to connect to stream",
                  isPlaying := false }) ∧
    (∀ (st : PlayerState) (es : List PlayerEvent),
      maxRetries ≤ st.retryCount → st.scheduledReload = none →
      (∀ e ∈ es, e = PlayerEvent.errorEv ∨ e = PlayerEvent.stalledEv ∨
        e = PlayerEvent.endedEv ∨ e = PlayerEvent.pauseEv ∨
        e = PlayerEvent.closePlayer) →
      (es.foldl playerStep st).scheduledReload = none ∧
      maxRetries ≤ (es.foldl playerStep st).retryCount ∧
      (es.foldl playerStep st).retryCount = st.retryCount) ∧
    (∀ st : PlayerState,
      (playerStep st PlayerEvent.playingEv).retryCount = 0 ∧
      (playerStep st PlayerEvent.playingEv).isReconnecting = false) ∧
    (∀ st : PlayerState,
      (playerStep st PlayerEvent.selectStation).retryCount = 0 ∧
      (playerStep st PlayerEvent.selectStation).scheduledReload = none ∧
      (playerStep st PlayerEvent.selectStation).isReconnecting = false) := by
  have hstep : ∀ st : PlayerState, maxRetries ≤ st.retryCount →
      st.scheduledReload = none →
      ∀ e, (e = PlayerEvent.errorEv ∨ e = PlayerEvent.stalledEv ∨
        e = PlayerEvent.endedEv ∨ e = PlayerEvent.pauseEv ∨
        e = PlayerEvent.closePlayer) →
      (playerStep st e).scheduledReload = none ∧
      (playerStep st e).retryCount = st.retryCount := by
    intro st hr hsch e he
    have harc := attemptReconnect_frozen hr
    rcases he with rfl | rfl | rfl | rfl | rfl
    · simp only [playerStep]
      split
      · exact ⟨harc.1.trans hsch, harc.2⟩
      · exact ⟨hsch, rfl⟩
    · simp only [playerStep]
      split
      · exact ⟨harc.1.trans hsch, harc.2⟩
      · exact ⟨hsch, rfl⟩
    · exact ⟨hsch, rfl⟩
    · exact ⟨hsch, rfl⟩
    · exact ⟨rfl, rfl⟩
  refine ⟨?_, ?_, ?_, ?_, ?_⟩
  · intro st n h1 h2 hb hr
    rcases attemptReconnect_cases st with ⟨hb', _⟩ | ⟨_, hge, _⟩ | ⟨_, _, h⟩
    · rw [hb] at hb'
      exact absurd hb' (by simp)
    · rw [hr] at hge
      unfold maxRetries at h2 hge
      omega
    · rw [h]
      refine ⟨by simp only [hr]; omega, rfl, ?_⟩
      simp only [hr, Nat.add_sub_cancel]
      rfl
  · intro st hb hr
    rcases attemptReconnect_cases st with ⟨hb', _⟩ | ⟨_, _, h⟩ | ⟨_, hlt, _⟩
    · rw [hb] at hb'
      exact absurd hb' (by simp)
    · exact h
    · exact absurd hr (not_le.mpr hlt)
  · intro st es hr hsch hes
    induction es generalizing st with
    | nil => exact ⟨hsch, hr, rfl⟩
    | cons e rest ih =>
      have he := hes e (List.mem_cons_self _ _)
      obtain ⟨h1, h2⟩ := hstep st hr hsch e he
      have hrest := ih (playerStep st e) (h2 ▸ hr) h1
        (fun e' he' => hes e' (List.mem_cons_of_mem _ he'))
      rw [List.foldl_cons]
      exact ⟨hrest.1, hrest.2.1, hrest.2.2.trans h2⟩
  · intro st
    exact ⟨rfl, rfl⟩
  · intro st
    exact ⟨rfl, rfl, rfl⟩

/-- The terminal failed session state after the 10th failed attempt. -/
def psFailed : PlayerState :=
  { retryCount := 10, isReconnecting := true, playbackStarted := true,
    isPlaying := false, error := some "Unable to connect to stream",
    scheduledReload := none, stationBound := true }

/-- A fresh bound session before the first reconnect attempt. -/
def psFresh : PlayerState :=
  { retryCount := 0, isReconnecting := false, playbackStarted := true,
    isPlaying := true, error := none, scheduledReload := none,
    stationBound := true }

theorem claim_C2_backoff_witness :
    (1 ≤ 1 ∧ 1 ≤ maxRetries ∧ psFresh.stationBound = true ∧
        psFresh.retryCount = 1 - 1 ∧
        (attemptReconnect psFresh).scheduledReload =
          some (min (2000 * 2 ^ (1 - 1)) 30000)) ∧
      maxRetries ≤ psFailed.retryCount ∧ psFailed.scheduledReload = none ∧
      ([PlayerEvent.errorEv, PlayerEvent.stalledEv].foldl playerStep
          psFailed).scheduledReload = none :=
  ⟨⟨by decide, by decide, rfl, rfl,
      (claim_C2_backoff.1 psFresh 1 (by decide) (by decide) rfl rfl).2.2⟩,
    by decide, rfl,
    (claim_C2_backoff.2.2.1 psFailed
      [PlayerEvent.errorEv, PlayerEvent.stalledEv]
      (by decide) rfl (by decide)).1⟩

/-- C9: a stall or error trigger while a reconnect is in flight is a no-op
(the state is unchanged, so no second reconnect is scheduled and the retry
count is not incremented); the session invariant "playing implies the stream
has ever played" is preserved by every event; and when a stall/error event
taken in the Playing state does start a reconnect attempt, the session
necessarily had `playbackStarted` true and no reconnect in flight. -/
theorem claim_C9_single_inflight :
    (∀ (st : PlayerState) (e : PlayerEvent),
      (e = PlayerEvent.errorEv ∨ e = PlayerEvent.stalledEv) →
      st.isReconnecting = true → playerStep st e = st) ∧
    (∀ (st : PlayerState) (e : PlayerEvent),
      (st.isPlaying = true → st.playbackStarted = true) →
      ((playerStep st e).isPlaying = true →
        (playerStep st e).playbackStarted = true)) ∧
    (∀ (st : PlayerState) (e : PlayerEvent),
      (e = PlayerEvent.errorEv ∨ e = PlayerEvent.stalledEv) →
      (st.isPlaying = true → st.playbackStarted = true) →
      st.isPlaying = true →
      (playerStep st e).retryCount = st.retryCount + 1 →
      st.playbackStarted = true ∧ st.isReconnecting = false) := by
  have hinert : ∀ st : PlayerState, st.isReconnecting = true →
      ∀ e, (e = PlayerEvent.errorEv ∨ e = PlayerEvent.stalledEv) →
      playerStep st e = st := by
    intro st hrec e he
    rcases he with rfl | rfl
    · simp only [playerStep]
      rw [if_neg (by simp [hrec])]
    · simp only [playerStep]
      rw [if_neg (by simp [hrec])]
  refine ⟨fun st e he hrec => hinert st hrec e he, ?_, ?_⟩
  · intro st e hinv
    have harc : ∀ st' : PlayerState,
        (st'.isPlaying = true → st'.playbackStarted = true) →
        ((attemptReconnect st').isPlaying = true →
          (attemptReconnect st').playbackStarted = true) := by
      intro st' hinv' hp
      rw [attemptReconnect_playbackStarted]
      exact hinv' (attemptReconnect_isPlaying st' hp)
    cases e
    · intro _
      rfl
    · exact harc _ hinv
    · simp only [playerStep]
      split
      · exact harc st hinv
      · exact hinv
    · simp only [playerStep]
      split
      · exact harc st hinv
      · exact hinv
    · intro hcon
      exact absurd hcon (by simp [playerStep])
    · intro _
      rfl
    · intro hcon
      exact absurd hcon (by simp [playerStep])
    · intro hcon
      exact absurd hcon (by simp [playerStep])
    · intro hcon
      exact absurd hcon (by simp [playerStep])
  · intro st e he hinv hpl hcount
    refine ⟨hinv hpl, ?_⟩
    rcases hrec : st.isReconnecting with _ | _
    · rfl
    · have hid := hinert st hrec e he
      rw [hid] at hcount
      omega

/-! Claim C6: cache read-through with backfill. -/

theorem queryRead_of_memory_miss {st : CacheState} {now : ℕ}
    {batch : List RadioStation}
    (h : st.memoryCache = none ∨ ¬(now - st.memoryCacheTimestamp < CACHE_DURATION)) :
    queryRead st now batch = queryReadStale st now batch := by
  rcases hm : st.memoryCache with _ | m
  · unfold queryRead
    rw [hm]
  · rcases h with h | h
    · rw [hm] at h
      exact absurd h (by simp)
    · unfold queryRead
      rw [hm]
      dsimp only
      rw [if_neg h]

/-- C6 (amended): when the memory layer misses but IndexedDB holds a
non-empty entry (written at a non-zero timestamp) within the 45-minute
window, the read returns that snapshot, backfills the memory layer with it,
and an immediate second read is then served from memory; and a hit at the
localStorage layer (layer 3) backfills both faster layers, memory and
IndexedDB. -/
theorem claim_C6_read_through :
    (∀ (st : CacheState) (now : ℕ) (batch stations : List RadioStation) (ts : ℕ),
      (st.memoryCache = none ∨ ¬(now - st.memoryCacheTimestamp < CACHE_DURATION)) →
      st.indexedDB = some (stations, ts) → ts ≠ 0 → now - ts < CACHE_DURATION →
      stations ≠ [] →
      (queryRead st now batch).1 = (stations, ReadSource.indexedDB) ∧
      (queryRead st now batch).2.memoryCache = some stations ∧
      (queryRead st now batch).2.memoryCacheTimestamp = now ∧
      (queryRead (queryRead st now batch).2 now batch).1 =
        (stations, ReadSource.memory)) ∧
    (∀ (st : CacheState) (now : ℕ) (batch stations : List RadioStation) (ts : ℕ),
      (st.memoryCache = none ∨ ¬(now - st.memoryCacheTimestamp < CACHE_DURATION)) →
      getFromIndexedDB st now = none →
      st.localStorage = some (stations, ts) → ¬(CACHE_DURATION < now - ts) →
      stations ≠ [] →
      (queryRead st now batch).1 = (stations, ReadSource.localStorage) ∧
      (queryRead st now batch).2.memoryCache = some stations ∧
      (queryRead st now batch).2.memoryCacheTimestamp = now ∧
      (queryRead st now batch).2.indexedDB = some (stations, now)) := by
  constructor
  · intro st now batch stations ts hmem hidb hts hfresh hne
    have hne' : stations.isEmpty = false := by
      cases stations
      · exact absurd rfl hne
      · rfl
    have hget : getFromIndexedDB st now = some stations := by
      unfold getFromIndexedDB
      rw [hidb]
      dsimp only
      rw [if_pos ⟨hts, hfresh⟩]
    have hstale : queryReadStale st now batch =
        ((stations, ReadSource.indexedDB),
          { st with memoryCache := some stations, memoryCacheTimestamp := now }) := by
      unfold queryReadStale
      rw [hget]
      dsimp only
      simp only [hne', Bool.false_eq_true, if_false]
    rw [queryRead_of_memory_miss hmem, hstale]
    refine ⟨rfl, rfl, rfl, ?_⟩
    have hfresh2 : now - now < CACHE_DURATION := by
      unfold CACHE_DURATION
      omega
    unfold queryRead
    dsimp only
    rw [if_pos hfresh2]
  · intro st now batch stations ts hmem hidb hls hfresh hne
    have hne' : stations.isEmpty = false := by
      cases stations
      · exact absurd rfl hne
      · rfl
    have hget : getCachedStations st now = (some stations, st) := by
      unfold getCachedStations
      rw [hls]
      dsimp only
      rw [if_neg hfresh]
      simp only [hne', Bool.false_eq_true, if_false]
    have hlsr : queryReadLS st now batch =
        ((stations, ReadSource.localStorage),
          { st with
              memoryCache := some stations
              memoryCacheTimestamp := now
              indexedDB := some (stations, now) }) := by
      unfold queryReadLS
      rw [hget]
    have hstale : queryReadStale st now batch = queryReadLS st now batch := by
      unfold queryReadStale
      rw [hidb]
    rw [queryRead_of_memory_miss hmem, hstale, hlsr]
    exact ⟨rfl, rfl, rfl, rfl⟩

/-- A cold-memory cache state whose IndexedDB layer holds a fresh snapshot. -/
def csWarmIDB : CacheState :=
  { memoryCache := none, memoryCacheTimestamp := 0,
    indexedDB := some ([wsValid], 1000), localStorage := none }

theorem claim_C6_read_through_witness :
    csWarmIDB.memoryCache = none ∧
      csWarmIDB.indexedDB = some ([wsValid], 1000) ∧
      (queryRead csWarmIDB 2000 []).1 = ([wsValid], ReadSource.indexedDB) ∧
      (queryRead (queryRead csWarmIDB 2000 []).2 2000 []).1 =
        ([wsValid], ReadSource.memory) := by
  have h := claim_C6_read_through.1 csWarmIDB 2000 [] [wsValid] 1000
    (Or.inl rfl) rfl (by decide) (by decide) (by simp)
  exact ⟨rfl, rfl, h.1, h.2.2.2⟩

/-- C6 counterexample to the claim as stated: an IndexedDB entry that is
within the validity window but holds an empty stations array is *not*
returned — the hook requires `indexedDBCache.length > 0` — so the read falls
through to the network layer instead of returning the durable-store
snapshot. -/
theorem claim_C6_counterexample :
    (queryRead
        { memoryCache := none, memoryCacheTimestamp := 0,
          indexedDB := some ([], 1000), localStorage := none } 2000 []).1.2 =
      ReadSource.network := by
  rfl

/-! Claims C4, C7, C10: the coordinate dedup and the final ordering. -/

/-- The specification's selection rule: within a coordinate group, `s` is at
least as good as `t` when it has a strictly higher quality score, or an
equal score and an identifier that is not lexicographically greater. -/
def keepsOver (s t : RadioStation) : Prop :=
  qualityScore t < qualityScore s ∨
    (qualityScore t = qualityScore s ∧
      charListLt t.stationuuid.data s.stationuuid.data = false)

theorem keepsOver_refl (s : RadioStation) : keepsOver s s :=
  Or.inr ⟨rfl, charListLt_irrefl _⟩

theorem keepsOver_score_le {e t : RadioStation} (h : keepsOver e t) :
    qualityScore t ≤ qualityScore e := by
  rcases h with h | ⟨h, _⟩
  · exact le_of_lt h
  · exact le_of_eq h

theorem keepsOver_of_lt {s t : RadioStation}
    (h : qualityScore t < qualityScore s) : keepsOver s t := Or.inl h

theorem keepsOver_of_betterStation_false {s e : RadioStation}
    (h : betterStation s e = false) : keepsOver e s := by
  unfold betterStation at h
  rw [Bool.or_eq_false_iff] at h
  obtain ⟨h1, h2⟩ := h
  have hle : ¬ qualityScore e < qualityScore s := by simpa using h1
  rcases lt_or_eq_of_le (not_lt.mp hle) with hlt | heq
  · exact Or.inl hlt
  · refine Or.inr ⟨heq, ?_⟩
    rcases hlt2 : charListLt s.stationuuid.data e.stationuuid.data with _ | _
    · rfl
    · rw [decide_eq_true heq, hlt2, Bool.true_and] at h2
      exact absurd h2 (by simp)

theorem qlt_of_betterStation_true {s e : RadioStation}
    (hsl : charListLt s.stationuuid.data e.stationuuid.data = false)
    (h : betterStation s e = true) :
    qualityScore e < qualityScore s := by
  unfold betterStation at h
  rw [hsl, Bool.and_false, Bool.or_false, decide_eq_true_eq] at h
  exact h

/-- Key bookkeeping of one `coordUpd` step: either the key already existed
and the key list is unchanged, or the key is fresh and is appended. -/
theorem coordUpd_keys (m : List (CoordKey × RadioStation)) (s : RadioStation) :
    ((coordUpd m s).map Prod.fst = m.map Prod.fst ∧
      coordKey s ∈ m.map Prod.fst) ∨
    ((coordUpd m s).map Prod.fst = m.map Prod.fst ++ [coordKey s] ∧
      coordKey s ∉ m.map Prod.fst) := by
  induction m with
  | nil => exact Or.inr ⟨rfl, by simp⟩
  | cons hd tl ih =>
    obtain ⟨k, e⟩ := hd
    by_cases hk : k = coordKey s
    · refine Or.inl ⟨?_, by simp [hk]⟩
      rw [coordUpd, if_pos hk]
      by_cases hb : betterStation s e = true
      · rw [if_pos hb]
        simp
      · rw [if_neg hb]
    · rw [coordUpd, if_neg hk]
      rcases ih with ⟨heq, hmem⟩ | ⟨heq, hmem⟩
      · exact Or.inl ⟨by simp [heq], List.mem_cons_of_mem _ hmem⟩
      · refine Or.inr ⟨by simp [heq], ?_⟩
        intro hcon
        rcases List.mem_cons.mp hcon with h' | h'
        · exact hk h'.symm
        · exact hmem h'

theorem coordUpd_keys_nodup {m : List (CoordKey × RadioStation)}
    {s : RadioStation} (h : (m.map Prod.fst).Nodup) :
    ((coordUpd m s).map Prod.fst).Nodup := by
  rcases coordUpd_keys m s with ⟨heq, _⟩ | ⟨heq, hmem⟩
  · rw [heq]
    exact h
  · rw [heq]
    rw [List.nodup_append]
    exact ⟨h, List.nodup_singleton _, by simpa using hmem⟩

theorem coordUpd_keys_superset {m : List (CoordKey × RadioStation)}
    {s : RadioStation} {k : CoordKey} (h : k ∈ m.map Prod.fst) :
    k ∈ (coordUpd m s).map Prod.fst := by
  rcases coordUpd_keys m s with ⟨heq, _⟩ | ⟨heq, _⟩ <;> rw [heq] <;>
    first
      | exact h
      | exact List.mem_append.mpr (Or.inl h)

theorem coordUpd_key_present (m : List (CoordKey × RadioStation))
    (s : RadioStation) : coordKey s ∈ (coordUpd m s).map Prod.fst := by
  rcases coordUpd_keys m s with ⟨heq, hmem⟩ | ⟨heq, _⟩ <;> rw [heq]
  · exact hmem
  · exact List.mem_append.mpr (Or.inr (List.mem_singleton.mpr rfl))

/-- Case analysis of one `coordUpd` step, assuming the keys are distinct, the
stored value of each entry matches its key, and every stored station has a
strictly smaller identifier than the incoming one (which is how the
uuid-sorted traversal reaches the step). -/
theorem coordUpd_opt {m : List (CoordKey × RadioStation)} {s : RadioStation}
    (hkeys : (m.map Prod.fst).Nodup)
    (hpt : ∀ p ∈ m, p.1 = coordKey p.2)
    (hlt : ∀ p ∈ m, charListLt p.2.stationuuid.data s.stationuuid.data = true) :
    ∀ p' ∈ coordUpd m s,
      (p' ∈ m ∧ p'.1 ≠ coordKey s) ∨
      (p' = (coordKey s, s) ∧
        ∀ p ∈ m, p.1 = coordKey s → qualityScore p.2 < qualityScore s) ∨
      (p' ∈ m ∧ p'.1 = coordKey s ∧ keepsOver p'.2 s) := by
  induction m with
  | nil =>
    intro p' hp'
    simp only [coordUpd, List.mem_singleton] at hp'
    exact Or.inr (Or.inl ⟨hp', by simp⟩)
  | cons hd tl ih =>
    obtain ⟨k, e⟩ := hd
    have hkc : (k :: tl.map Prod.fst).Nodup := hkeys
    have hknotin : k ∉ tl.map Prod.fst := (List.nodup_cons.mp hkc).1
    have hkeys' : (tl.map Prod.fst).Nodup := (List.nodup_cons.mp hkc).2
    have hes : charListLt s.stationuuid.data e.stationuuid.data = false :=
      charListLt_asymm (hlt (k, e) (List.mem_cons_self _ _))
    intro p' hp'
    by_cases hk : k = coordKey s
    · rw [coordUpd, if_pos hk] at hp'
      by_cases hb : betterStation s e = true
      · rw [if_pos hb] at hp'
        rcases List.mem_cons.mp hp' with h' | h'
        · refine Or.inr (Or.inl ⟨by rw [h', hk], ?_⟩)
          intro p hp hpk
          rcases List.mem_cons.mp hp with h'' | h''
          · rw [h'']
            exact qlt_of_betterStation_true hes hb
          · exfalso
            apply hknotin
            rw [hk, ← hpk]
            exact List.mem_map.mpr ⟨p, h'', rfl⟩
        · refine Or.inl ⟨List.mem_cons_of_mem _ h', ?_⟩
          intro hcon
          apply hknotin
          rw [hk, ← hcon]
          exact List.mem_map.mpr ⟨p', h', rfl⟩
      · rw [if_neg hb] at hp'
        rcases List.mem_cons.mp hp' with h' | h'
        · refine Or.inr (Or.inr ⟨h' ▸ List.mem_cons_self _ _, by rw [h', hk], ?_⟩)
          rw [h']
          exact keepsOver_of_betterStation_false
            (Bool.not_eq_true _ ▸ Bool.of_not_eq_true hb)
        · refine Or.inl ⟨List.mem_cons_of_mem _ h', ?_⟩
          intro hcon
          apply hknotin
          rw [hk, ← hcon]
          exact List.mem_map.mpr ⟨p', h', rfl⟩
    · rw [coordUpd, if_neg hk] at hp'
      rcases List.mem_cons.mp hp' with h' | h'
      · exact Or.inl ⟨h' ▸ List.mem_cons_self _ _, by rw [h']; exact hk⟩
      · rcases ih hkeys' (fun p hp => hpt p (List.mem_cons_of_mem _ hp))
          (fun p hp => hlt p (List.mem_cons_of_mem _ hp)) p' h' with
          h'' | ⟨heq, hmax⟩ | ⟨hmem, hkeq, hko⟩
        · exact Or.inl ⟨List.mem_cons_of_mem _ h''.1, h''.2⟩
        · refine Or.inr (Or.inl ⟨heq, ?_⟩)
          intro p hp hpk
          rcases List.mem_cons.mp hp with h3 | h3
          · rw [h3] at hpk
            exact absurd hpk hk
          · exact hmax p h3 hpk
        · exact Or.inr (Or.inr ⟨List.mem_cons_of_mem _ hmem, hkeq, hko⟩)

/-- Invariant of the coordinate-dedup fold, traversing the uuid-sorted list:
the map keeps distinct keys, every entry stores a processed station under its
own key, every entry is optimal (by score, then smaller id) among the
processed stations of its group, and every processed station's group is
represented. -/
theorem coordFold_inv :
    ∀ (todo done : List RadioStation) (m : List (CoordKey × RadioStation)),
      todo.Pairwise
        (fun a b => charListLt a.stationuuid.data b.stationuuid.data = true) →
      (∀ t ∈ done, ∀ s ∈ todo,
        charListLt t.stationuuid.data s.stationuuid.data = true) →
      (m.map Prod.fst).Nodup →
      (∀ p ∈ m, p.1 = coordKey p.2 ∧ p.2 ∈ done) →
      (∀ p ∈ m, ∀ t ∈ done, coordKey t = p.1 → keepsOver p.2 t) →
      (∀ t ∈ done, ∃ p ∈ m, p.1 = coordKey t) →
      ((todo.foldl coordUpd m).map Prod.fst).Nodup ∧
      (∀ p ∈ todo.foldl coordUpd m, p.1 = coordKey p.2 ∧ p.2 ∈ done ++ todo) ∧
      (∀ p ∈ todo.foldl coordUpd m, ∀ t ∈ done ++ todo,
        coordKey t = p.1 → keepsOver p.2 t) ∧
      (∀ t ∈ done ++ todo, ∃ p ∈ todo.foldl coordUpd m, p.1 = coordKey t) := by
  intro todo
  induction todo with
  | nil =>
    intro done m _ _ hkeys hpt hopt hcov
    rw [List.foldl_nil, List.append_nil]
    exact ⟨hkeys, hpt, hopt, hcov⟩
  | cons s rest ih =>
    intro done m hpw hord hkeys hpt hopt hcov
    obtain ⟨hs_rest, hpw_rest⟩ := List.pairwise_cons.mp hpw
    have hltm : ∀ p ∈ m,
        charListLt p.2.stationuuid.data s.stationuuid.data = true :=
      fun p hp => hord p.2 (hpt p hp).2 s (List.mem_cons_self _ _)
    have hkeys' := @coordUpd_keys_nodup m s hkeys
    have hpt' : ∀ p ∈ coordUpd m s,
        p.1 = coordKey p.2 ∧ p.2 ∈ done ++ [s] := by
      intro p hp
      rcases mem_coordUpd hp with h' | h'
      · exact ⟨(hpt p h').1, List.mem_append.mpr (Or.inl (hpt p h').2)⟩
      · rw [h']
        exact ⟨rfl, List.mem_append.mpr (Or.inr (List.mem_singleton.mpr rfl))⟩
    have hopt' : ∀ p ∈ coordUpd m s, ∀ t ∈ done ++ [s],
        coordKey t = p.1 → keepsOver p.2 t := by
      intro p' hp' t ht hkt
      rcases coordUpd_opt hkeys (fun p hp => (hpt p hp).1) hltm p' hp' with
        ⟨hpm, hne⟩ | ⟨hpe, hmax⟩ | ⟨hpm, hkeq, hko⟩
      · rcases List.mem_append.mp ht with ht' | ht'
        · exact hopt p' hpm t ht' hkt
        · rw [List.mem_singleton.mp ht'] at hkt
          exact absurd hkt.symm hne
      · rw [hpe]
        rcases List.mem_append.mp ht with ht' | ht'
        · obtain ⟨p₀, hp₀, hk₀⟩ := hcov t ht'
          have hko₀ := hopt p₀ hp₀ t ht' hk₀.symm
          have hp₀k : p₀.1 = coordKey s := by
            rw [hk₀, hkt, hpe]
          have hlt₀ := hmax p₀ hp₀ hp₀k
          exact keepsOver_of_lt (lt_of_le_of_lt (keepsOver_score_le hko₀) hlt₀)
        · rw [List.mem_singleton.mp ht']
          exact keepsOver_refl s
      · rcases List.mem_append.mp ht with ht' | ht'
        · exact hopt p' hpm t ht' hkt
        · rw [List.mem_singleton.mp ht']
          exact hko
    have hcov' : ∀ t ∈ done ++ [s], ∃ p ∈ coordUpd m s, p.1 = coordKey t := by
      intro t ht
      rcases List.mem_append.mp ht with ht' | ht'
      · obtain ⟨p₀, hp₀, hk₀⟩ := hcov t ht'
        have hkmem : coordKey t ∈ (coordUpd m s).map Prod.fst :=
          coordUpd_keys_superset (hk₀ ▸ List.mem_map.mpr ⟨p₀, hp₀, rfl⟩)
        obtain ⟨p, hp, hpk⟩ := List.mem_map.mp hkmem
        exact ⟨p, hp, hpk⟩
      · rw [List.mem_singleton.mp ht']
        obtain ⟨p, hp, hpk⟩ := List.mem_map.mp (coordUpd_key_present m s)
        exact ⟨p, hp, hpk⟩
    have hord' : ∀ t ∈ done ++ [s], ∀ r ∈ rest,
        charListLt t.stationuuid.data r.stationuuid.data = true := by
      intro t ht r hr
      rcases List.mem_append.mp ht with ht' | ht'
      · exact hord t ht' r (List.mem_cons_of_mem _ hr)
      · rw [List.mem_singleton.mp ht']
        exact hs_rest r hr
    have hmain := ih (done ++ [s]) (coordUpd m s) hpw_rest hord' hkeys'
      hpt' hopt' hcov'
    rw [List.foldl_cons]
    have happ : done ++ s :: rest = (done ++ [s]) ++ rest := by
      simp
    rw [happ]
    exact hmain

theorem sortByUuid_pairwise_strict {l : List RadioStation}
    (h : (l.map RadioStation.stationuuid).Nodup) :
    (sortByUuid l).Pairwise
      (fun a b => charListLt a.stationuuid.data b.stationuuid.data = true) := by
  have hsorted : (sortByUuid l).Pairwise uuidLe :=
    List.sorted_insertionSort uuidLe l
  have hperm : List.Perm (sortByUuid l) l := List.perm_insertionSort uuidLe l
  have hnodup : ((sortByUuid l).map RadioStation.stationuuid).Nodup :=
    ((hperm.map RadioStation.stationuuid).nodup_iff).mpr h
  have hne : (sortByUuid l).Pairwise
      (fun a b => a.stationuuid ≠ b.stationuuid) :=
    List.pairwise_map.mp hnodup
  refine (hsorted.and hne).imp ?_
  intro a b hab
  obtain ⟨hle, hneq⟩ := hab
  rcases hlt : charListLt a.stationuuid.data b.stationuuid.data with _ | _
  · exfalso
    exact hneq (String.ext (charListLt_eq_of_not_lt hlt hle))
  · rfl

/-- Strict uuid order or literal equality; antisymmetric, which pins down the
sorted order of a uuid-distinct list. -/
def uuidLtOrEq (a b : RadioStation) : Prop :=
  charListLt a.stationuuid.data b.stationuuid.data = true ∨ a = b

instance : IsAntisymm RadioStation uuidLtOrEq := by
  constructor
  intro a b h1 h2
  rcases h1 with h1 | h1
  · rcases h2 with h2 | h2
    · rw [charListLt_asymm h1] at h2
      exact absurd h2 (by simp)
    · exact h2.symm
  · exact h1

theorem sortByUuid_eq_of_perm {l₁ l₂ : List RadioStation}
    (hp : List.Perm l₁ l₂)
    (h : (l₁.map RadioStation.stationuuid).Nodup) :
    sortByUuid l₁ = sortByUuid l₂ := by
  have h₂ : (l₂.map RadioStation.stationuuid).Nodup :=
    ((hp.map RadioStation.stationuuid).nodup_iff).mp h
  have hs₁ : (sortByUuid l₁).Pairwise uuidLtOrEq :=
    (sortByUuid_pairwise_strict h).imp fun hab => Or.inl hab
  have hs₂ : (sortByUuid l₂).Pairwise uuidLtOrEq :=
    (sortByUuid_pairwise_strict h₂).imp fun hab => Or.inl hab
  have hperm : List.Perm (sortByUuid l₁) (sortByUuid l₂) :=
    (List.perm_insertionSort uuidLe l₁).trans
      (hp.trans (List.perm_insertionSort uuidLe l₂).symm)
  exact List.eq_of_perm_of_sorted hperm hs₁ hs₂

/-- C4 (amended): on an input whose station identifiers are pairwise
distinct, the coordinate dedup is order-insensitive — every permutation of
the input yields literally the same output — and the output has exactly one
station per coordinate key (3-decimal rounding of each coordinate), namely a
member of the input that, within its coordinate group, has the maximal
quality score 2*votes + clickCount + bitrateKbps/10, with ties resolved in
favour of the lexicographically smaller identifier; every input station's
coordinate key is represented. -/
theorem claim_C4_coordinate_dedup :
    ∀ l : List RadioStation, (l.map RadioStation.stationuuid).Nodup →
      (∀ l' : List RadioStation, List.Perm l l' →
        deduplicateByCoordinates l' = deduplicateByCoordinates l) ∧
      ((deduplicateByCoordinates l).map coordKey).Nodup ∧
      (∀ s ∈ deduplicateByCoordinates l, s ∈ l ∧
        ∀ t ∈ l, coordKey t = coordKey s →
          qualityScore t < qualityScore s ∨
            (qualityScore t = qualityScore s ∧
              charListLt t.stationuuid.data s.stationuuid.data = false)) ∧
      (∀ t ∈ l, ∃ s ∈ deduplicateByCoordinates l, coordKey s = coordKey t) := by
  intro l hnodup
  have hmain := coordFold_inv (sortByUuid l) [] []
    (sortByUuid_pairwise_strict hnodup) (by simp) (by simp)
    (by simp) (by simp) (by simp)
  rw [List.nil_append] at hmain
  obtain ⟨hkeys, hpt, hopt, hcov⟩ := hmain
  have hpermS : List.Perm (sortByUuid l) l := List.perm_insertionSort uuidLe l
  have hdef : deduplicateByCoordinates l =
      ((sortByUuid l).foldl coordUpd []).map Prod.snd := rfl
  refine ⟨?_, ?_, ?_, ?_⟩
  · intro l' hp
    unfold deduplicateByCoordinates
    rw [← sortByUuid_eq_of_perm hp hnodup]
  · rw [hdef, List.map_map]
    have hcongr : ((sortByUuid l).foldl coordUpd []).map (coordKey ∘ Prod.snd) =
        ((sortByUuid l).foldl coordUpd []).map Prod.fst := by
      apply List.map_congr_left
      intro p hp
      exact ((hpt p hp).1).symm
    rw [hcongr]
    exact hkeys
  · intro s hs
    rw [hdef] at hs
    obtain ⟨p, hp, hps⟩ := List.mem_map.mp hs
    constructor
    · exact hpermS.mem_iff.mp (hps ▸ (hpt p hp).2)
    · intro t ht hkt
      have hkt' : coordKey t = p.1 := by
        rw [(hpt p hp).1, hps]
        exact hkt
      have := hopt p hp t (hpermS.mem_iff.mpr ht) hkt'
      rw [hps] at this
      exact this
  · intro t ht
    obtain ⟨p, hp, hpk⟩ := hcov t (hpermS.mem_iff.mpr ht)
    refine ⟨p.2, ?_, ?_⟩
    · rw [hdef]
      exact List.mem_map.mpr ⟨p, hp, rfl⟩
    · rw [← (hpt p hp).1, hpk]

/-- A valid station; its identifier is deliberately duplicated below. -/
def csDupA : RadioStation :=
  { stationuuid := "dup", name := "One", url := "http://dup.example/a",
    url_resolved := "", homepage := "", favicon := "", country := "Peru",
    countrycode := "PE", state := "", language := "spanish", votes := 0,
    codec := "MP3", bitrate := 0, clickcount := 0, clicktrend := 0,
    geo_lat := some (JSNum.num 1), geo_long := some (JSNum.num 2),
    tags := none }

/-- Same identifier, same coordinates and score, different payload. -/
def csDupB : RadioStation := { csDupA with name := "Two" }

theorem csDup_sortAB : sortByUuid [csDupA, csDupB] = [csDupA, csDupB] := by
  rfl

theorem csDup_sortBA : sortByUuid [csDupB, csDupA] = [csDupB, csDupA] := by
  rfl

theorem csDup_better_false :
    betterStation csDupB csDupA = false ∧ betterStation csDupA csDupB = false := by
  have hscore : qualityScore csDupB = qualityScore csDupA := rfl
  have hlt : charListLt csDupB.stationuuid.data csDupA.stationuuid.data = false := by
    decide
  have hlt2 : charListLt csDupA.stationuuid.data csDupB.stationuuid.data = false := by
    decide
  constructor
  · unfold betterStation
    rw [decide_eq_false (hscore ▸ lt_irrefl (qualityScore csDupA)), hlt,
      Bool.and_false, Bool.or_false]
  · unfold betterStation
    rw [decide_eq_false (hscore ▸ lt_irrefl (qualityScore csDupA)), hlt2,
      Bool.and_false, Bool.or_false]

/-- C4 counterexample to the claim as stated: over arbitrary lists of valid
stations the coordinate dedup is *not* permutation-insensitive.  With two
valid stations sharing an identifier (and coordinates and score) the two
orders of the same two-element set produce different outputs, because the
id-sort cannot separate equal identifiers and the tie-break keeps whichever
record was seen first. -/
theorem claim_C4_counterexample :
    List.Perm [csDupA, csDupB] [csDupB, csDupA] ∧
      stationFilter csDupA = true ∧ stationFilter csDupB = true ∧
      deduplicateByCoordinates [csDupA, csDupB] = [csDupA] ∧
      deduplicateByCoordinates [csDupB, csDupA] = [csDupB] ∧
      csDupA ≠ csDupB := by
  have hkeyAB : coordKey csDupA = coordKey csDupB := rfl
  have hkeyBA : coordKey csDupB = coordKey csDupA := rfl
  have hfilter : stationFilter csDupA = true := by
    rw [stationFilter_iff]
    refine ⟨?_, by decide, by decide, by decide⟩
    rw [hasValidCoordinates_iff]
    exact ⟨1, 2, rfl, rfl, by norm_num, by norm_num, by norm_num, by norm_num,
      by norm_num⟩
  have hfilterB : stationFilter csDupB = true := by
    rw [stationFilter_iff]
    refine ⟨?_, by decide, by decide, by decide⟩
    rw [hasValidCoordinates_iff]
    exact ⟨1, 2, rfl, rfl, by norm_num, by norm_num, by norm_num, by norm_num,
      by norm_num⟩
  refine ⟨List.Perm.swap csDupB csDupA [], hfilter, hfilterB, ?_, ?_, by decide⟩
  · unfold deduplicateByCoordinates
    rw [csDup_sortAB, List.foldl_cons, List.foldl_cons, List.foldl_nil]
    rw [show coordUpd ([] : List (CoordKey × RadioStation)) csDupA =
      [(coordKey csDupA, csDupA)] from rfl]
    rw [coordUpd, if_pos hkeyAB, if_neg (by simp [csDup_better_false.1])]
    rfl
  · unfold deduplicateByCoordinates
    rw [csDup_sortBA, List.foldl_cons, List.foldl_cons, List.foldl_nil]
    rw [show coordUpd ([] : List (CoordKey × RadioStation)) csDupB =
      [(coordKey csDupB, csDupB)] from rfl]
    rw [coordUpd, if_pos hkeyBA, if_neg (by simp [csDup_better_false.2])]
    rfl

theorem claim_C4_coordinate_dedup_witness :
    ([wsValid, wsOther].map RadioStation.stationuuid).Nodup ∧
      (∀ t ∈ [wsValid, wsOther],
        ∃ s ∈ deduplicateByCoordinates [wsValid, wsOther],
          coordKey s = coordKey t) :=
  ⟨by decide,
    (claim_C4_coordinate_dedup [wsValid, wsOther] (by decide)).2.2.2⟩

/-- C7: the final sort of `processStations` orders by descending quality
score with ties broken by ascending identifier — the comparator's preorder
is total and any two stations comparing equal under it share an identifier
(so it is a total order on distinct ids) — and the optional thematic reorder
is exactly the stable partition that moves keyword-matching stations to the
front while preserving the relative order inside each partition. -/
theorem claim_C7_final_ordering :
    (∀ l : List RadioStation, (sortByQuality l).Pairwise qualityLe) ∧
    (∀ l : List RadioStation, List.Perm (sortByQuality l) l) ∧
    (∀ a b : RadioStation, qualityLe a b ∨ qualityLe b a) ∧
    (∀ a b : RadioStation,
      qualityLe a b → qualityLe b a → a.stationuuid = b.stationuuid) ∧
    (∀ l : List RadioStation, prioritizeChristianStations l =
      l.filter (fun s => isChristianStation s) ++
        l.filter (fun s => !isChristianStation s)) ∧
    (∀ l : List RadioStation, processStations l =
      prioritizeChristianStations
        (sortByQuality (deduplicateByCoordinates (l.filter stationFilter)))) :=
  ⟨fun l => List.sorted_insertionSort qualityLe l,
    fun l => List.perm_insertionSort qualityLe l,
    fun a b => IsTotal.total a b,
    fun _ _ h1 h2 => qualityLe_antisymm_uuid h1 h2,
    prioritizeChristianStations_eq,
    fun _ => rfl⟩

/-- A twin of `wsValid` with the same identifier and score. -/
def wsTwin : RadioStation := { wsValid with name := "AlphaTwin" }

theorem claim_C7_final_ordering_witness :
    qualityLe wsValid wsTwin ∧ qualityLe wsTwin wsValid ∧
      wsValid.stationuuid = wsTwin.stationuuid :=
  ⟨Or.inr ⟨rfl, by decide⟩, Or.inr ⟨rfl, by decide⟩,
    claim_C7_final_ordering.2.2.2.1 wsValid wsTwin
      (Or.inr ⟨rfl, by decide⟩) (Or.inr ⟨rfl, by decide⟩)⟩

/-! Claim C10: coordinate-key uniqueness of every published catalog. -/

theorem coordFold_keys :
    ∀ (todo : List RadioStation) (m : List (CoordKey × RadioStation)),
      (m.map Prod.fst).Nodup →
      (∀ p ∈ m, p.1 = coordKey p.2) →
      ((todo.foldl coordUpd m).map Prod.fst).Nodup ∧
      (∀ p ∈ todo.foldl coordUpd m, p.1 = coordKey p.2) := by
  intro todo
  induction todo with
  | nil =>
    intro m hkeys hpt
    exact ⟨hkeys, hpt⟩
  | cons s rest ih =>
    intro m hkeys hpt
    rw [List.foldl_cons]
    refine ih (coordUpd m s) (coordUpd_keys_nodup hkeys) ?_
    intro p hp
    rcases mem_coordUpd hp with h' | h'
    · exact hpt p h'
    · rw [h']

theorem deduplicateByCoordinates_coordKey_nodup (l : List RadioStation) :
    ((deduplicateByCoordinates l).map coordKey).Nodup := by
  obtain ⟨hkeys, hpt⟩ := coordFold_keys (sortByUuid l) [] (by simp) (by simp)
  have hdef : deduplicateByCoordinates l =
      ((sortByUuid l).foldl coordUpd []).map Prod.snd := rfl
  rw [hdef, List.map_map]
  have hcongr : ((sortByUuid l).foldl coordUpd []).map (coordKey ∘ Prod.snd) =
      ((sortByUuid l).foldl coordUpd []).map Prod.fst := by
    apply List.map_congr_left
    intro p hp
    exact (hpt p hp).symm
  rw [hcongr]
  exact hkeys

theorem processStations_coordKey_nodup (l : List RadioStation) :
    ((processStations l).map coordKey).Nodup := by
  have h1 := deduplicateByCoordinates_coordKey_nodup (l.filter stationFilter)
  have hperm1 : List.Perm
      (sortByQuality (deduplicateByCoordinates (l.filter stationFilter)))
      (deduplicateByCoordinates (l.filter stationFilter)) :=
    List.perm_insertionSort qualityLe _
  have hperm2 : List.Perm (processStations l)
      (sortByQuality (deduplicateByCoordinates (l.filter stationFilter))) := by
    have := prioritizeChristianStations_eq
      (sortByQuality (deduplicateByCoordinates (l.filter stationFilter)))
    rw [show processStations l =
      prioritizeChristianStations
        (sortByQuality (deduplicateByCoordinates (l.filter stationFilter)))
      from rfl, this]
    exact List.filter_append_perm _ _
  have hperm : List.Perm ((processStations l).map coordKey)
      ((deduplicateByCoordinates (l.filter stationFilter)).map coordKey) :=
    (hperm2.trans hperm1).map coordKey
  exact hperm.nodup_iff.mpr h1

/-- C10: every catalog produced by `processStations` has pairwise-distinct
coordinate keys, and one loader tick preserves that invariant of the
published catalog (each republish either leaves the catalog unchanged or
publishes a fresh `processStations` image). -/
theorem claim_C10_published_coordkey_unique :
    (∀ l : List RadioStation, ((processStations l).map coordKey).Nodup) ∧
    (∀ (st : LoaderState) (res : FetchOutcome) (sec : List RadioStation),
      (st.published.map coordKey).Nodup →
      ((loadNextBatch st res sec).published.map coordKey).Nodup) := by
  refine ⟨processStations_coordKey_nodup, ?_⟩
  intro st res sec h
  unfold loadNextBatch
  split
  · exact h
  · split
    · exact h
    · split
      · dsimp only
        split
        · exact processStations_coordKey_nodup _
        · exact h
      · exact processStations_coordKey_nodup _

theorem claim_C10_published_coordkey_unique_witness :
    (loaderAt600.published.map coordKey).Nodup ∧
      ((loadNextBatch loaderAt600 FetchOutcome.exception []).published.map
        coordKey).Nodup :=
  ⟨by decide,
    claim_C10_published_coordkey_unique.2 loaderAt600 FetchOutcome.exception []
      (by decide)⟩

/-- A session in the middle of a reconnect attempt. -/
def psReconnecting : PlayerState :=
  { retryCount := 3, isReconnecting := true, playbackStarted := true,
    isPlaying := false, error := none, scheduledReload := some 8000,
    stationBound := true }

theorem claim_C9_single_inflight_witness :
    psReconnecting.isReconnecting = true ∧
      playerStep psReconnecting PlayerEvent.errorEv = psReconnecting ∧
      playerStep psReconnecting PlayerEvent.stalledEv = psReconnecting :=
  ⟨rfl,
    claim_C9_single_inflight.1 psReconnecting PlayerEvent.errorEv
      (Or.inl rfl) rfl,
    claim_C9_single_inflight.1 psReconnecting PlayerEvent.stalledEv
      (Or.inr rfl) rfl⟩
